/-
Verification of the DeepOD `BaseDeepAD` orchestration layer
(`deepod/core/base_model.py`) against its specification.

The Python source is shallowly embedded:
* machine floats are modelled as exact rationals (`ℚ`), with `Real.sqrt`
  and `Real.log` used for the two genuinely irrational operations
  (`np.std`, `np.log`);
* `numpy` arrays are `List ℚ`;
* the abstract hooks supplied by concrete subclasses
  (`training_prepare`, `inference_forward`, ...) are parameters of the
  embedded functions;
* fallible paths return `Except`.
-/
import Mathlib

set_option maxHeartbeats 1000000

/-- Modelled from the spec: `get_sub_seqs` lives in
`deepod/utils/utility.py`, which is not part of the sources here.
Spec §3: window `i` is the contiguous slice of length `seq_len` starting
at offset `i * stride`; window count is
`floor((n_samples - seq_len)/stride) + 1`. -/
def get_sub_seqs (X : List (List ℚ)) (seq_len stride : ℕ) :
    List (List (List ℚ)) :=
  (List.range ((X.length - seq_len) / stride + 1)).map
    (fun i => (X.drop (i * stride)).take seq_len)

/-- `np.mean` over an array of rationals. -/
def listMean (l : List ℚ) : ℚ := l.sum / l.length

/-- `np.percentile(l, q)` with the default linear-interpolation method:
sort ascending, take `h = q/100 * (n-1)`, and interpolate between the
entries at positions `⌊h⌋` and `⌊h⌋ + 1`. -/
def percentile (l : List ℚ) (q : ℚ) : ℚ :=
  let a := l.insertionSort (· ≤ ·)
  let h : ℚ := q / 100 * ((l.length : ℚ) - 1)
  let i : ℕ := (⌊h⌋).toNat
  let lo := a.getD i 0
  let hi := a.getD (i + 1) lo
  lo + (h - (⌊h⌋ : ℚ)) * (hi - lo)

/-- The attributes of `BaseDeepAD` that the decision scorer reads and
writes: `contamination` (a constructor argument) plus
`decision_scores_`, `threshold_`, `labels_`, `_mu`, `_sigma`. -/
structure DetectorState where
  contamination : ℚ
  decision_scores_ : List ℚ
  threshold_ : ℚ
  labels_ : List ℕ
  mu_ : ℚ
  sigma_ : ℝ

/-- `BaseDeepAD._process_decision_scores`, the helper body in
isolation: it mutates `self`, setting
`threshold_ = np.percentile(decision_scores_, 100*(1-contamination))`,
`labels_ = (decision_scores_ > threshold_).astype(int)`,
`_mu = np.mean(decision_scores_)` and `_sigma = np.std(decision_scores_)`
from the already finalized `decision_scores_`, and ends with
`return self`.  The enclosing assignment
`self.labels_ = self._process_decision_scores()` executed by `fit`
is modelled separately by `fit_decision_tail`. -/
noncomputable def process_decision_scores (s : DetectorState) : DetectorState :=
  let t := percentile s.decision_scores_ (100 * (1 - s.contamination))
  { s with
    threshold_ := t
    labels_ := s.decision_scores_.map (fun x => if t < x then 1 else 0)
    mu_ := listMean s.decision_scores_
    sigma_ := Real.sqrt
      ((listMean (s.decision_scores_.map
        (fun x => (x - listMean s.decision_scores_) ^ 2)) : ℚ)) }

/-- The value the dynamically typed `labels_` attribute holds: a NumPy
0/1 array, or a reference to the model object itself. -/
inductive NpOrSelf where
  | arr : List ℕ → NpOrSelf
  | self_ref : NpOrSelf
deriving DecidableEq

/-- The detector attributes as they stand once `fit` returns. -/
structure PostFitState where
  decision_scores_ : List ℚ
  threshold_ : ℚ
  labels_ : NpOrSelf
  mu_ : ℚ
  sigma_ : ℝ

/-- Line 200 of `fit` (and line 290 of `fit_auto_hyper`):
`self.labels_ = self._process_decision_scores()`.  The helper mutates
`self` - setting `labels_` to the 0/1 array - and then returns `self`
(line 422); the enclosing assignment rebinds `self.labels_` to that
return value, the model object itself.  `threshold_`, `_mu`, `_sigma`
and `decision_scores_` are not reassigned and keep the helper's
values. -/
noncomputable def fit_decision_tail (s : DetectorState) : PostFitState :=
  let s2 := process_decision_scores s
  { decision_scores_ := s2.decision_scores_
    threshold_ := s2.threshold_
    labels_ := NpOrSelf.self_ref
    mu_ := s2.mu_
    sigma_ := s2.sigma_ }

/-- `scipy.stats.binom.cdf(k, n, p)` for a nonnegative integer argument
`k`: the probability that a Binomial(n, p) variable is at most `k`. -/
def binom_cdf (k n : ℕ) (p : ℚ) : ℚ :=
  ∑ i ∈ Finset.range (k + 1), (n.choose i : ℚ) * p ^ i * (1 - p) ^ (n - i)

/-- `BaseDeepAD._predict_confidence` (Perini et al.): for each test score
`x`, `k = np.count_nonzero(decision_scores_ <= x)`,
`p = (1+k)/(2+n)`, `c = 1 - binom.cdf(n - int(n*contamination), n, p)`;
scores not above `threshold_` (predicted inliers) report `1 - c`.
`int(n*contamination)` is written `⌊n*contamination⌋.toNat`, which agrees
with Python truncation for the nonnegative values the class admits. -/
def predict_confidence (train_scores : List ℚ) (contamination t : ℚ)
    (test_scores : List ℚ) : List ℚ :=
  let n := train_scores.length
  test_scores.map (fun x =>
    let k := train_scores.countP (fun s => decide (s ≤ x))
    let p : ℚ := (1 + (k : ℚ)) / (2 + (n : ℚ))
    let c := 1 - binom_cdf (n - (⌊(n : ℚ) * contamination⌋).toNat) n p
    if t < x then c else 1 - c)

/-- `BaseDeepAD.predict(X, return_confidence=True)`: binary labels
`pred_score > threshold_` together with `_predict_confidence` applied to
the same scores.  `test_scores` stands for the output of
`decision_function(X)`. -/
def predict (train_scores : List ℚ) (contamination t : ℚ)
    (test_scores : List ℚ) : List ℕ × List ℚ :=
  (test_scores.map (fun x => if t < x then 1 else 0),
   predict_confidence train_scores contamination t test_scores)

/-- The per-member score vector as `decision_function` sees it just
before accumulation: in time-series mode the unscored prefix of
`seq_len - 1` timestamps is left-padded with zeros
(`np.hstack((np.zeros(seq_len-1), scores))`). -/
def member_scores_padded (data_type : String) (seq_len : ℕ)
    (scores : List ℚ) : List ℚ :=
  if data_type = "ts" then List.replicate (seq_len - 1) 0 ++ scores
  else scores

/-- `BaseDeepAD.decision_function`: starting from
`s_final = np.zeros(testing_n_samples)`, loop over the `n_ensemble`
members, obtain each member's scores from the external inference hooks
(parameter `member_scores`, the value of `scores` after
`decision_function_update`), pad them in time-series mode, and
accumulate by plain summation `s_final += scores`.  In time-series mode
the input was windowed with `get_sub_seqs(X, seq_len, stride=1)`, so
`member_scores m` has one entry per window. -/
def decision_function (data_type : String) (seq_len n_ensemble : ℕ)
    (member_scores : ℕ → List ℚ) (testing_n_samples : ℕ) : List ℚ :=
  (List.range n_ensemble).foldl
    (fun s_final m =>
      List.zipWith (· + ·) s_final
        (member_scores_padded data_type seq_len (member_scores m)))
    (List.replicate testing_n_samples 0)

/-- The data-framing branch at the top of `BaseDeepAD.fit`
(lines 172-181): `'ts'` windows the input with the training stride; any
other `data_type` falls into the `else` branch and is treated as
tabular.  `fit` has no failing branch. -/
def fit_data_framing (data_type : String) (seq_len stride : ℕ)
    (X : List (List ℚ)) :
    Except String (List (List (List ℚ)) ⊕ List (List ℚ)) :=
  if data_type = "ts" then
    Except.ok (Sum.inl (get_sub_seqs X seq_len stride))
  else
    Except.ok (Sum.inr X)

/-- The data-framing branch at the top of `BaseDeepAD.fit_auto_hyper`
(lines 235-246): `'ts'` windows, `'tabular'` passes through, and any
other `data_type` raises `NotImplementedError('unsupported data_type')`
before any other work. -/
def fit_auto_hyper_data_framing (data_type : String) (seq_len stride : ℕ)
    (X : List (List ℚ)) :
    Except String (List (List (List ℚ)) ⊕ List (List ℚ)) :=
  if data_type = "ts" then
    Except.ok (Sum.inl (get_sub_seqs X seq_len stride))
  else if data_type = "tabular" then
    Except.ok (Sum.inr X)
  else
    Except.error "unsupported data_type"

/-- The `n_ensemble` attribute: the string `'auto'` or an integer. -/
inductive EnsembleSize where
  | auto : EnsembleSize
  | val : ℤ → EnsembleSize
deriving DecidableEq

/-- The integer `fit` substitutes for `'auto'`:
`int(np.floor(100 / (np.log(n_samples) + n_features)) + 1)`. -/
noncomputable def auto_n_ensemble (n_samples n_features : ℕ) : ℤ :=
  ⌊(100 : ℝ) / (Real.log n_samples + n_features)⌋ + 1

/-- The slice of `BaseDeepAD` state that the ensemble-size resolution in
`fit` touches. -/
structure EnsembleState where
  n_ensemble : EnsembleSize
  n_samples : ℕ
  n_features : ℕ

/-- Lines 177/181 and 186-187 of `fit`: record the data dimensions,
then overwrite `self.n_ensemble` with the resolved integer exactly when
it is still the string `'auto'`. -/
noncomputable def fit_resolve_ensemble (s : EnsembleState)
    (n_samples n_features : ℕ) : EnsembleState :=
  match s.n_ensemble with
  | EnsembleSize.auto =>
      { n_ensemble := EnsembleSize.val (auto_n_ensemble n_samples n_features)
        n_samples := n_samples
        n_features := n_features }
  | EnsembleSize.val k =>
      { n_ensemble := EnsembleSize.val k
        n_samples := n_samples
        n_features := n_features }

/-- Number of loop iterations `range(self.n_ensemble)` produces in
`fit` and `decision_function` once `n_ensemble` holds an integer. -/
def ensemble_loop_count (e : EnsembleSize) : ℕ :=
  match e with
  | EnsembleSize.auto => 0
  | EnsembleSize.val k => k.toNat

/-- The batch loop inside one epoch of `BaseDeepAD._training`:
`cnt` is incremented after each processed batch and the loop exits when
`cnt > epoch_steps != -1` (Python chained comparison:
`cnt > epoch_steps` and `epoch_steps ≠ -1`).  Arguments: remaining
batches in the loader, then the running `cnt`. -/
def training_epoch_go (epoch_steps : ℤ) : ℕ → ℕ → ℕ
  | 0, cnt => cnt
  | r + 1, cnt =>
    let cnt2 := cnt + 1
    if epoch_steps < (cnt2 : ℤ) ∧ epoch_steps ≠ -1 then cnt2
    else training_epoch_go epoch_steps r cnt2

/-- Number of batches one epoch of `_training` processes out of a loader
holding `n_batches` batches. -/
def training_epoch_batches (epoch_steps : ℤ) (n_batches : ℕ) : ℕ :=
  training_epoch_go epoch_steps n_batches 0

/-- The checkpoint dictionary attached to a Ray trial: the recorded
epoch number and the serialized network parameters. -/
structure RayCheckpoint where
  epoch : ℤ
  net_state : List ℚ
deriving DecidableEq

/-- The tuned hyperparameter configuration of a trial.  The `epochs`
entry of the dictionary is modelled as an explicit field. -/
structure RayConfig where
  lr : ℚ
  epochs : ℤ
deriving DecidableEq

/-- `{config, checkpoint}` of the best trial returned by the scheduler. -/
structure RayTrial where
  config : RayConfig
  checkpoint : RayCheckpoint
deriving DecidableEq

/-- The slice of live `BaseDeepAD` state that the tail of
`fit_auto_hyper` can touch: the `epochs` attribute, the live network
parameters, and the live hyperparameter configuration. -/
structure TunableModel where
  epochs : ℤ
  net_params : List ℚ
  hyper_config : RayConfig
deriving DecidableEq

/-- Modelled from the spec: `load_ray_checkpoint` is an overridable
hook whose concrete implementations live in subclass files that are not
among the sources here (the base-class body is a bare `return`).
Spec §4.7: it restores the checkpoint into the live model's parameters
and the config into the live hyperparameters. -/
def load_ray_checkpoint (s : TunableModel) (best_config : RayConfig)
    (best_checkpoint : RayCheckpoint) : TunableModel :=
  { s with
    net_params := best_checkpoint.net_state
    hyper_config := best_config }

/-- Lines 282-291 of `fit_auto_hyper`, after the scheduler returns:
call `load_ray_checkpoint(best_config, best_checkpoint)` and then
execute `best_config['epochs'] = best_checkpoint['epoch']`, which
mutates the returned config dictionary (the mutation is visible through
the reference the hook stored, hence it is applied to both copies
here); the method returns `best_config`.  No statement assigns
`self.epochs`. -/
def fit_auto_hyper_finalize (s : TunableModel) (best : RayTrial) :
    TunableModel × RayConfig :=
  let best_config := { best.config with epochs := best.checkpoint.epoch }
  let s2 := load_ray_checkpoint s best_config best.checkpoint
  (s2, best_config)

/-- Lines 259-264 of `fit_auto_hyper`: with
`size = sys.getsizeof(train_data)/(1024**2)`, when `size >= 30` the
training data and (when labels were given) the labels are cut to the
first `int(len(train_data)/(size/30))` rows and one warning is emitted;
otherwise the payload passes through unchanged.  The third component
counts emitted warnings. -/
def fit_auto_hyper_truncate (size : ℚ) (train_data : List (List ℚ))
    (train_label : Option (List ℚ)) :
    List (List ℚ) × Option (List ℚ) × ℕ :=
  if 30 ≤ size then
    let split := (⌊(train_data.length : ℚ) / (size / 30)⌋).toNat
    (train_data.take split, train_label.map (fun l => l.take split), 1)
  else
    (train_data, train_label, 0)

/-- Helper-level decision state: in isolation
`_process_decision_scores` sets `threshold_` to the
`100*(1-contamination)` percentile of `decision_scores_`, an array with
`labels_[i] = 1` exactly when `decision_scores_[i] > threshold_`, and
the mean and standard deviation of `decision_scores_`, all as functions
of the finalized raw scores alone, which the step leaves untouched.
(`fit` then rebinds the `labels_` attribute itself: see
`fit_decision_tail`.) -/
lemma process_decision_scores_spec (s : DetectorState) :
    (process_decision_scores s).decision_scores_ = s.decision_scores_ ∧
    (process_decision_scores s).threshold_ =
      percentile s.decision_scores_ (100 * (1 - s.contamination)) ∧
    (process_decision_scores s).labels_.length =
      s.decision_scores_.length ∧
    (∀ i, i < s.decision_scores_.length →
      ((process_decision_scores s).labels_.getD i 0 = 1 ↔
        (process_decision_scores s).threshold_ <
          s.decision_scores_.getD i 0)) ∧
    (process_decision_scores s).mu_ = listMean s.decision_scores_ ∧
    (process_decision_scores s).sigma_ =
      Real.sqrt (listMean (s.decision_scores_.map
        (fun x => (x - listMean s.decision_scores_) ^ 2))) := by
  refine ⟨rfl, rfl, by simp [process_decision_scores], ?_, rfl, rfl⟩
  intro i hi
  have ht : (process_decision_scores s).threshold_ =
      percentile s.decision_scores_ (100 * (1 - s.contamination)) := rfl
  rw [ht, show (process_decision_scores s).labels_ =
      s.decision_scores_.map
        (fun x => if percentile s.decision_scores_
          (100 * (1 - s.contamination)) < x then (1 : ℕ) else 0) from rfl]
  rw [List.getD_eq_getElem _ _ (by simpa using hi),
      List.getD_eq_getElem _ _ hi, List.getElem_map]
  split_ifs with hP
  · simp [hP]
  · simp [hP]

/-- C1: code bug.  Inside `_process_decision_scores` the decision
state is as claimed, but `fit` line 200 assigns the helper's return
value - `self` - to `self.labels_`, so after `fit` completes the
`labels_` attribute holds the model object, not the binary array.
Evaluated at the two-score state `[3, 7]` with contamination `1/10`:
the helper's array is `[0, 1]` (score 7 exceeds the threshold 33/5,
score 3 does not), but the post-fit attribute is the self-reference,
which is no 0/1 array; the threshold itself is kept as claimed. -/
theorem c1_fit_labels_clobbered :
    (fit_decision_tail ⟨1/10, [3, 7], 0, [], 0, 0⟩).labels_ =
      NpOrSelf.self_ref ∧
    NpOrSelf.self_ref ≠ NpOrSelf.arr [0, 1] ∧
    (process_decision_scores ⟨1/10, [3, 7], 0, [], 0, 0⟩).labels_ =
      [0, 1] ∧
    (fit_decision_tail ⟨1/10, [3, 7], 0, [], 0, 0⟩).threshold_ =
      percentile [3, 7] (100 * (1 - 1/10)) := by
  refine ⟨rfl, by decide, ?_, rfl⟩
  have h1 : (100 * (1 - 1/10 : ℚ)) / 100 *
      ((([3, 7] : List ℚ).length : ℚ) - 1) = 9/10 := by
    norm_num
  have h2 : (⌊(9/10 : ℚ)⌋ : ℤ) = 0 := by norm_num
  have ht : percentile [3, 7] (100 * (1 - 1/10)) = 33/5 := by
    simp only [percentile, h1, h2]
    norm_num [List.insertionSort, List.orderedInsert, List.getD]
  show ([3, 7] : List ℚ).map (fun x =>
    if percentile [3, 7] (100 * (1 - 1/10)) < x then (1 : ℕ) else 0) =
    [0, 1]
  rw [ht]
  norm_num

/-- C5 counterexample: `fit_auto_hyper` does not assign the live
`epochs` attribute.  With a live model whose `epochs` is 100 and a best
trial whose checkpoint records epoch 7, the live `epochs` after the
post-search restoration is still 100, not the checkpoint's 7. -/
theorem c5_counterexample :
    (fit_auto_hyper_finalize ⟨100, [], ⟨1/100, 100⟩⟩
        ⟨⟨1/100, 100⟩, ⟨7, [5]⟩⟩).1.epochs ≠
      ((⟨⟨1/100, 100⟩, ⟨7, [5]⟩⟩ : RayTrial)).checkpoint.epoch := by
  decide

/-- C5 amended: after the trials complete, `fit_auto_hyper` restores
the best trial's checkpoint into the live model's parameters and its
config into the live hyperparameters (via the `load_ray_checkpoint`
hook), and records the checkpoint's recorded epoch in the `epochs`
entry of the *returned* best config; the live `epochs` attribute is
left unchanged, so a subsequent re-fit uses the original epoch cap
unless the caller applies the returned config. -/
theorem c5_amended (s : TunableModel) (best : RayTrial) :
    (fit_auto_hyper_finalize s best).1.net_params =
      best.checkpoint.net_state ∧
    (fit_auto_hyper_finalize s best).1.hyper_config =
      { best.config with epochs := best.checkpoint.epoch } ∧
    (fit_auto_hyper_finalize s best).1.epochs = s.epochs ∧
    (fit_auto_hyper_finalize s best).2.epochs = best.checkpoint.epoch :=
  ⟨rfl, rfl, rfl, rfl⟩

/-- C6: the code contradicts its own docstring (`epoch_steps`:
"Maximum steps in an epoch").  The guard `cnt > epoch_steps != -1`
fires only after batch `epoch_steps + 1` has been processed, so with
`epoch_steps = 2` and a 5-batch loader an epoch processes 3 batches,
one more than the documented cap; with `epoch_steps = -1` all 5 batches
are processed as documented. -/
theorem c6_epoch_steps_off_by_one :
    training_epoch_batches 2 5 = 3 ∧
    training_epoch_batches (-1) 5 = 5 := by
  decide

/-- C7 counterexample: `fit` raises nothing for an unsupported
`data_type`.  With `data_type = 'image'` the framing branch of `fit`
succeeds, treating the input as tabular, instead of failing eagerly. -/
theorem c7_counterexample :
    fit_data_framing "image" 100 1 [[1], [2]] =
      Except.ok (Sum.inr [[1], [2]]) := rfl

/-- C7 amended: for every `data_type` other than `'tabular'` and
`'ts'`, `fit_auto_hyper` fails eagerly (raising
`NotImplementedError('unsupported data_type')` before any training
work), but `fit` raises no error at all: its framing step treats every
non-`'ts'` value as tabular data. -/
theorem c7_amended (data_type : String) (seq_len stride : ℕ)
    (X : List (List ℚ))
    (h1 : data_type ≠ "ts") (h2 : data_type ≠ "tabular") :
    fit_auto_hyper_data_framing data_type seq_len stride X =
      Except.error "unsupported data_type" ∧
    fit_data_framing data_type seq_len stride X =
      Except.ok (Sum.inr X) := by
  constructor
  · simp [fit_auto_hyper_data_framing, h1, h2]
  · simp [fit_data_framing, h1]

/-- C7 amended witness: the dispatch outcomes at
`data_type = 'image'`. -/
theorem c7_amended_witness :
    ("image" ≠ "ts" ∧ "image" ≠ "tabular") ∧
    (fit_auto_hyper_data_framing "image" 100 1 [[1]] =
        Except.error "unsupported data_type" ∧
      fit_data_framing "image" 100 1 [[1]] =
        Except.ok (Sum.inr [[1]])) :=
  ⟨⟨by decide, by decide⟩,
   c7_amended "image" 100 1 [[1]] (by decide) (by decide)⟩

/-- C10: when `fit` is entered with `n_ensemble = 'auto'`, the
attribute is permanently overwritten with
`floor(100/(ln(n_samples) + n_features)) + 1`; the member loops of
`fit`/`decision_function`/`predict` then iterate exactly that many
times, and a second `fit` on data of different dimensions keeps the
stored integer instead of re-resolving `'auto'`. -/
theorem c10_auto_ensemble_resolution (s : EnsembleState)
    (n1 d1 n2 d2 : ℕ) (h : s.n_ensemble = EnsembleSize.auto) :
    (fit_resolve_ensemble s n1 d1).n_ensemble =
      EnsembleSize.val (auto_n_ensemble n1 d1) ∧
    (fit_resolve_ensemble (fit_resolve_ensemble s n1 d1) n2 d2).n_ensemble =
      EnsembleSize.val (auto_n_ensemble n1 d1) ∧
    ensemble_loop_count (fit_resolve_ensemble s n1 d1).n_ensemble =
      (auto_n_ensemble n1 d1).toNat := by
  have h1 : fit_resolve_ensemble s n1 d1 =
      { n_ensemble := EnsembleSize.val (auto_n_ensemble n1 d1)
        n_samples := n1
        n_features := d1 } := by
    unfold fit_resolve_ensemble
    rw [h]
  refine ⟨by rw [h1], ?_, by rw [h1]; rfl⟩
  rw [h1]
  unfold fit_resolve_ensemble
  rfl

/-- C10 witness: a detector constructed with `n_ensemble = 'auto'`,
first fitted on a 1000-sample 20-feature dataset and then on a
50-sample 3-feature one. -/
theorem c10_auto_ensemble_resolution_witness :
    ((⟨EnsembleSize.auto, 0, 0⟩ : EnsembleState)).n_ensemble =
      EnsembleSize.auto ∧
    ((fit_resolve_ensemble ⟨EnsembleSize.auto, 0, 0⟩ 1000 20).n_ensemble =
      EnsembleSize.val (auto_n_ensemble 1000 20) ∧
    (fit_resolve_ensemble
        (fit_resolve_ensemble ⟨EnsembleSize.auto, 0, 0⟩ 1000 20)
        50 3).n_ensemble =
      EnsembleSize.val (auto_n_ensemble 1000 20) ∧
    ensemble_loop_count
        (fit_resolve_ensemble ⟨EnsembleSize.auto, 0, 0⟩ 1000 20).n_ensemble =
      (auto_n_ensemble 1000 20).toNat) :=
  ⟨rfl, c10_auto_ensemble_resolution ⟨EnsembleSize.auto, 0, 0⟩ 1000 20 50 3 rfl⟩

/-- C9: before dispatching to the scheduler, `fit_auto_hyper` leaves a
payload under the 30 MiB limit unchanged (no warning), and when the
payload size reaches the limit it keeps only the first
`int(len/(size/30))` rows of the data (and of the labels, when given),
emitting exactly one warning; under the proportional size model
`size = len * rowMiB` the truncated payload fits within the budget. -/
theorem c9_payload_truncation (size rowMiB : ℚ)
    (train_data : List (List ℚ)) (train_label : Option (List ℚ))
    (hrow : 0 < rowMiB)
    (hsize : size = (train_data.length : ℚ) * rowMiB) :
    (30 ≤ size →
      fit_auto_hyper_truncate size train_data train_label =
        (train_data.take
          ((⌊(train_data.length : ℚ) / (size / 30)⌋).toNat),
         train_label.map (fun l => l.take
          ((⌊(train_data.length : ℚ) / (size / 30)⌋).toNat)),
         1) ∧
      ((fit_auto_hyper_truncate size train_data
          train_label).1.length : ℚ) * rowMiB ≤ 30) ∧
    (size < 30 →
      fit_auto_hyper_truncate size train_data train_label =
        (train_data, train_label, 0)) := by
  constructor
  · intro h30
    have heq : fit_auto_hyper_truncate size train_data train_label =
        (train_data.take
          ((⌊(train_data.length : ℚ) / (size / 30)⌋).toNat),
         train_label.map (fun l => l.take
          ((⌊(train_data.length : ℚ) / (size / 30)⌋).toNat)),
         1) := by
      simp [fit_auto_hyper_truncate, h30]
    refine ⟨heq, ?_⟩
    rw [heq]
    have hsz0 : (0 : ℚ) < size := lt_of_lt_of_le (by norm_num) h30
    have hq0 : (0 : ℚ) ≤ (train_data.length : ℚ) / (size / 30) := by
      positivity
    have hfl : (((⌊(train_data.length : ℚ) / (size / 30)⌋).toNat : ℕ) : ℚ) ≤
        (train_data.length : ℚ) / (size / 30) := by
      have h0 : (0 : ℤ) ≤ ⌊(train_data.length : ℚ) / (size / 30)⌋ :=
        Int.floor_nonneg.mpr hq0
      have h2 : (((⌊(train_data.length : ℚ) / (size / 30)⌋).toNat : ℤ) : ℚ) ≤
          (train_data.length : ℚ) / (size / 30) := by
        rw [Int.toNat_of_nonneg h0]
        exact Int.floor_le _
      exact_mod_cast h2
    have hlen : (((train_data.take
        ((⌊(train_data.length : ℚ) / (size / 30)⌋).toNat)).length : ℕ) : ℚ) ≤
        (train_data.length : ℚ) / (size / 30) := by
      refine le_trans ?_ hfl
      have := List.length_take
        ((⌊(train_data.length : ℚ) / (size / 30)⌋).toNat) train_data
      exact_mod_cast Nat.cast_le.mpr
        (le_trans (le_of_eq this) (min_le_left _ _))
    have hL0 : (0 : ℚ) < (train_data.length : ℚ) := by
      by_contra hc
      push_neg at hc
      have : (train_data.length : ℚ) = 0 :=
        le_antisymm hc (by positivity)
      rw [this, zero_mul] at hsize
      rw [hsize] at h30
      norm_num at h30
    have hfinal : ((train_data.length : ℚ) / (size / 30)) * rowMiB = 30 := by
      rw [hsize]
      field_simp
      ring
    calc (((train_data.take
          ((⌊(train_data.length : ℚ) / (size / 30)⌋).toNat)).length : ℕ) : ℚ) *
            rowMiB
        ≤ ((train_data.length : ℚ) / (size / 30)) * rowMiB :=
          mul_le_mul_of_nonneg_right hlen hrow.le
      _ = 30 := hfinal
  · intro hlt
    simp [fit_auto_hyper_truncate, not_le.mpr hlt]

/-- C9 witness: a 60 MiB payload of 4 rows at 15 MiB per row is cut to
its first 2 rows and the truncated payload measures 30 MiB. -/
theorem c9_payload_truncation_witness :
    (0 : ℚ) < 15 ∧
    (60 : ℚ) = (([[1], [2], [3], [4]] : List (List ℚ)).length : ℚ) * 15 ∧
    (30 : ℚ) ≤ 60 ∧
    ((fit_auto_hyper_truncate 60 [[1], [2], [3], [4]]
        (some [1, 2, 3, 4])).1.length : ℚ) * 15 ≤ 30 :=
  ⟨by norm_num, by norm_num, by norm_num,
   ((c9_payload_truncation 60 15 [[1], [2], [3], [4]] (some [1, 2, 3, 4])
      (by norm_num) (by norm_num)).1 (by norm_num)).2⟩

/-- In time-series mode the member scores are left-padded with
`seq_len - 1` zeros before accumulation. -/
lemma member_scores_padded_ts (seq_len : ℕ) (s : List ℚ) :
    member_scores_padded "ts" seq_len s =
      List.replicate (seq_len - 1) 0 ++ s := by
  rw [member_scores_padded]
  exact if_pos rfl

/-- Outside time-series mode the member scores pass through unpadded. -/
lemma member_scores_padded_other (data_type : String) (seq_len : ℕ)
    (s : List ℚ) (h : data_type ≠ "ts") :
    member_scores_padded data_type seq_len s = s := by
  rw [member_scores_padded]
  exact if_neg h

/-- Accumulation invariant of the member loop in `decision_function`:
folding `s_final += scores_m` over a member list leaves the length
unchanged and adds, entrywise, the sum of the members' entries. -/
lemma foldl_zipWith_add_spec (f : ℕ → List ℚ) (L : List ℕ) :
    ∀ acc : List ℚ, (∀ m ∈ L, (f m).length = acc.length) →
      (L.foldl (fun s m => List.zipWith (· + ·) s (f m)) acc).length =
        acc.length ∧
      ∀ i, i < acc.length →
        (L.foldl (fun s m => List.zipWith (· + ·) s (f m)) acc).getD i 0 =
          acc.getD i 0 + (L.map (fun m => (f m).getD i 0)).sum := by
  induction L with
  | nil =>
    intro acc h
    exact ⟨rfl, by intro i hi; simp⟩
  | cons m L ih =>
    intro acc h
    have hm : (f m).length = acc.length := h m (List.mem_cons_self m L)
    have hlen : (List.zipWith (· + ·) acc (f m)).length = acc.length := by
      rw [List.length_zipWith, hm, min_self]
    have hrec := ih (List.zipWith (· + ·) acc (f m))
      (by intro x hx; rw [hlen]; exact h x (List.mem_cons_of_mem m hx))
    constructor
    · rw [List.foldl_cons, hrec.1, hlen]
    · intro i hi
      rw [List.foldl_cons, hrec.2 i (by rw [hlen]; exact hi)]
      have hz : (List.zipWith (· + ·) acc (f m)).getD i 0 =
          acc.getD i 0 + (f m).getD i 0 := by
        rw [List.getD_eq_getElem _ _ (by rw [hlen]; exact hi),
            List.getD_eq_getElem _ _ hi,
            List.getD_eq_getElem _ _ (by rw [hm]; exact hi),
            List.getElem_zipWith]
      rw [hz, List.map_cons, List.sum_cons]
      ring

/-- A sum over `List.range` is a sum over `Finset.range`. -/
lemma list_range_map_sum (f : ℕ → ℚ) (N : ℕ) :
    ((List.range N).map f).sum = ∑ m ∈ Finset.range N, f m := by
  induction N with
  | zero => simp
  | succ n ih =>
    rw [List.range_succ, List.map_append, List.sum_append,
        Finset.sum_range_succ, ih]
    simp

/-- At inference time windows are produced with stride 1, so there is
one window per position from `seq_len - 1` on. -/
lemma get_sub_seqs_stride_one_length (X : List (List ℚ)) (seq_len : ℕ) :
    (get_sub_seqs X seq_len 1).length = X.length - seq_len + 1 := by
  simp [get_sub_seqs]

/-- C3: in time-series mode, for an input with `n ≥ seq_len` rows,
`decision_function` returns a score array of length exactly `n` whose
first `seq_len - 1` entries are exactly zero, the remaining entries
being the per-window scores (summed over the ensemble members), the
windows having been produced with stride forced to 1. -/
theorem c3_ts_score_expansion (seq_len N : ℕ) (X : List (List ℚ))
    (member_scores : ℕ → List ℚ)
    (hsl : 1 ≤ seq_len) (hn : seq_len ≤ X.length)
    (hms : ∀ m, (member_scores m).length =
      (get_sub_seqs X seq_len 1).length) :
    (decision_function "ts" seq_len N member_scores X.length).length =
      X.length ∧
    (∀ i, i < seq_len - 1 →
      (decision_function "ts" seq_len N member_scores X.length).getD i 0 =
        0) ∧
    (∀ j, seq_len - 1 + j < X.length →
      (decision_function "ts" seq_len N member_scores
          X.length).getD (seq_len - 1 + j) 0 =
        ∑ m ∈ Finset.range N, (member_scores m).getD j 0) := by
  have hw : ∀ m, (member_scores m).length = X.length - seq_len + 1 := by
    intro m
    rw [hms m, get_sub_seqs_stride_one_length]
  have hpadlen : ∀ m,
      (member_scores_padded "ts" seq_len (member_scores m)).length =
        X.length := by
    intro m
    rw [member_scores_padded_ts, List.length_append,
        List.length_replicate, hw m]
    omega
  have hacc : (List.replicate X.length (0 : ℚ)).length = X.length :=
    List.length_replicate X.length 0
  have hspec := foldl_zipWith_add_spec
    (fun m => member_scores_padded "ts" seq_len (member_scores m))
    (List.range N) (List.replicate X.length 0)
    (by intro m _; simp only [hpadlen, hacc])
  have hdf : decision_function "ts" seq_len N member_scores X.length =
      (List.range N).foldl
        (fun s m => List.zipWith (· + ·) s
          (member_scores_padded "ts" seq_len (member_scores m)))
        (List.replicate X.length 0) := rfl
  refine ⟨by rw [hdf, hspec.1, hacc], ?_, ?_⟩
  · intro i hi
    have hiX : i < X.length := by omega
    rw [hdf, hspec.2 i (by rw [hacc]; exact hiX)]
    have h0 : (List.replicate X.length (0 : ℚ)).getD i 0 = 0 := by
      rw [List.getD_eq_getElem _ _ (by rw [hacc]; exact hiX),
          List.getElem_replicate]
    rw [h0, zero_add]
    apply List.sum_eq_zero
    intro x hx
    rw [List.mem_map] at hx
    obtain ⟨m, _, hxeq⟩ := hx
    rw [← hxeq]
    show (member_scores_padded "ts" seq_len (member_scores m)).getD i 0 = 0
    have hib : i < (member_scores_padded "ts" seq_len
        (member_scores m)).length := by rw [hpadlen m]; exact hiX
    rw [List.getD_eq_getElem _ _ hib]
    have hrep : i < (List.replicate (seq_len - 1) (0 : ℚ)).length := by
      rw [List.length_replicate]
      exact hi
    rw [List.getElem_of_eq (member_scores_padded_ts seq_len
          (member_scores m)) hib,
        List.getElem_append_left hrep, List.getElem_replicate]
  · intro j hj
    rw [hdf, hspec.2 (seq_len - 1 + j) (by rw [hacc]; exact hj)]
    have h0 : (List.replicate X.length (0 : ℚ)).getD (seq_len - 1 + j) 0 =
        0 := by
      rw [List.getD_eq_getElem _ _ (by rw [hacc]; exact hj),
          List.getElem_replicate]
    rw [h0, zero_add, ← list_range_map_sum]
    congr 1
    apply List.map_congr_left
    intro m _
    show (member_scores_padded "ts" seq_len (member_scores m)).getD
        (seq_len - 1 + j) 0 = (member_scores m).getD j 0
    have hjw : j < (member_scores m).length := by rw [hw m]; omega
    have hib : seq_len - 1 + j < (member_scores_padded "ts" seq_len
        (member_scores m)).length := by rw [hpadlen m]; exact hj
    rw [List.getD_eq_getElem _ _ hib, List.getD_eq_getElem _ _ hjw,
        List.getElem_of_eq (member_scores_padded_ts seq_len
          (member_scores m)) hib,
        List.getElem_append_right (by rw [List.length_replicate]; omega)]
    simp only [List.length_replicate, Nat.add_sub_cancel_left]

/-- C3 witness: a 6-row univariate series scored with `seq_len = 5` by
one member whose two window scores are 10 and 20; re-expanded entry 3
(inside the unscored prefix of length 4) is exactly zero. -/
theorem c3_ts_score_expansion_witness :
    (1 ≤ 5 ∧
     5 ≤ ([[1], [2], [3], [4], [5], [6]] : List (List ℚ)).length ∧
     (3 : ℕ) < 5 - 1) ∧
    (decision_function "ts" 5 1 (fun _ => [10, 20])
      ([[1], [2], [3], [4], [5], [6]] : List (List ℚ)).length).getD 3 0 =
      0 :=
  ⟨⟨by decide, by decide, by decide⟩,
   (c3_ts_score_expansion 5 1 [[1], [2], [3], [4], [5], [6]]
     (fun _ => [10, 20]) (by decide) (by decide)
     (fun _ => rfl)).2.1 3 (by decide)⟩

/-- C4: the raw score returned by `decision_function` is the plain sum
(not the average) of the per-member scores over all `n_ensemble`
members, and consequently a constant model (identical member scores)
yields exactly `n_ensemble` times the single-member score array. -/
theorem c4_ensemble_sum (N n : ℕ) (member_scores : ℕ → List ℚ)
    (hms : ∀ m, (member_scores m).length = n) :
    ((decision_function "tabular" 0 N member_scores n).length = n ∧
     ∀ i, i < n →
       (decision_function "tabular" 0 N member_scores n).getD i 0 =
         ∑ m ∈ Finset.range N, (member_scores m).getD i 0) ∧
    (∀ s0 : List ℚ, s0.length = n → (∀ m, member_scores m = s0) →
      decision_function "tabular" 0 N member_scores n =
        s0.map (fun x => (N : ℚ) * x)) := by
  have hpad : ∀ m, member_scores_padded "tabular" 0 (member_scores m) =
      member_scores m := fun m =>
    member_scores_padded_other "tabular" 0 (member_scores m) (by decide)
  have hacc : (List.replicate n (0 : ℚ)).length = n :=
    List.length_replicate n 0
  have hspec := foldl_zipWith_add_spec
    (fun m => member_scores_padded "tabular" 0 (member_scores m))
    (List.range N) (List.replicate n 0)
    (by intro m _; simp only [hpad, hms, hacc])
  have hdf : decision_function "tabular" 0 N member_scores n =
      (List.range N).foldl
        (fun s m => List.zipWith (· + ·) s
          (member_scores_padded "tabular" 0 (member_scores m)))
        (List.replicate n 0) := rfl
  have hlen : (decision_function "tabular" 0 N member_scores n).length =
      n := by rw [hdf, hspec.1, hacc]
  have hsum : ∀ i, i < n →
      (decision_function "tabular" 0 N member_scores n).getD i 0 =
        ∑ m ∈ Finset.range N, (member_scores m).getD i 0 := by
    intro i hi
    rw [hdf, hspec.2 i (by rw [hacc]; exact hi)]
    have h0 : (List.replicate n (0 : ℚ)).getD i 0 = 0 := by
      rw [List.getD_eq_getElem _ _ (by rw [hacc]; exact hi),
          List.getElem_replicate]
    rw [h0, zero_add, ← list_range_map_sum]
    refine congrArg List.sum (List.map_congr_left ?_)
    intro m _
    show (member_scores_padded "tabular" 0 (member_scores m)).getD i 0 =
      (member_scores m).getD i 0
    rw [hpad m]
  refine ⟨⟨hlen, hsum⟩, ?_⟩
  intro s0 hs0 hconst
  apply List.ext_getElem
  · rw [hlen, List.length_map, hs0]
  · intro i h1 h2
    have hi : i < n := by rw [hlen] at h1; exact h1
    have hgd : (decision_function "tabular" 0 N member_scores n).getD i 0 =
        (decision_function "tabular" 0 N member_scores n)[i] :=
      List.getD_eq_getElem _ _ h1
    rw [← hgd, hsum i hi, List.getElem_map]
    have hsi : i < s0.length := by rw [hs0]; exact hi
    have hc : ∀ m ∈ Finset.range N, (member_scores m).getD i 0 =
        s0.getD i 0 := by
      intro m _
      rw [hconst m]
    rw [Finset.sum_congr rfl hc, Finset.sum_const, Finset.card_range,
        List.getD_eq_getElem _ _ hsi]
    simp [nsmul_eq_mul]

/-- C4 witness: with `n_ensemble = 3` and every member producing
`[1, 2]`, the raw scores are exactly 3 times the single-member array. -/
theorem c4_ensemble_sum_witness :
    (∀ m : ℕ, ((fun _ => ([1, 2] : List ℚ)) m).length = 2) ∧
    ([1, 2] : List ℚ).length = 2 ∧
    decision_function "tabular" 0 3 (fun _ => ([1, 2] : List ℚ)) 2 =
      ([1, 2] : List ℚ).map (fun x => (3 : ℚ) * x) :=
  ⟨fun _ => rfl, rfl,
   (c4_ensemble_sum 3 2 (fun _ => [1, 2]) (fun _ => rfl)).2
     [1, 2] rfl (fun _ => rfl)⟩

/-- The binomial cumulative distribution lies above 0 for
`p ∈ [0, 1]`. -/
lemma binom_cdf_nonneg (k n : ℕ) (p : ℚ) (h0 : 0 ≤ p) (h1 : p ≤ 1) :
    0 ≤ binom_cdf k n p := by
  apply Finset.sum_nonneg
  intro i _
  have h1p : (0 : ℚ) ≤ 1 - p := by linarith
  exact mul_nonneg (mul_nonneg (by positivity) (pow_nonneg h0 i))
    (pow_nonneg h1p _)

/-- The binomial cumulative distribution lies below 1 for `k ≤ n` and
`p ∈ [0, 1]`: it is a partial sum of the full binomial expansion of
`(p + (1-p))^n = 1`. -/
lemma binom_cdf_le_one (k n : ℕ) (hk : k ≤ n) (p : ℚ) (h0 : 0 ≤ p)
    (h1 : p ≤ 1) : binom_cdf k n p ≤ 1 := by
  have h1p : (0 : ℚ) ≤ 1 - p := by linarith
  have hsub : Finset.range (k + 1) ⊆ Finset.range (n + 1) :=
    Finset.range_subset.mpr (by omega)
  have hle : binom_cdf k n p ≤
      ∑ i ∈ Finset.range (n + 1),
        (n.choose i : ℚ) * p ^ i * (1 - p) ^ (n - i) :=
    Finset.sum_le_sum_of_subset_of_nonneg hsub
      (fun i _ _ => mul_nonneg (mul_nonneg (by positivity)
        (pow_nonneg h0 i)) (pow_nonneg h1p _))
  have hbin := add_pow p (1 - p) n
  rw [show p + (1 - p) = 1 from by ring, one_pow] at hbin
  have hswap : ∑ i ∈ Finset.range (n + 1),
      (n.choose i : ℚ) * p ^ i * (1 - p) ^ (n - i) =
      ∑ i ∈ Finset.range (n + 1),
        p ^ i * (1 - p) ^ (n - i) * (n.choose i : ℚ) :=
    Finset.sum_congr rfl (fun i _ => by ring)
  rw [hswap, ← hbin] at hle
  exact hle

/-- One entry of `_predict_confidence`, written out. -/
lemma predict_confidence_getD (train_scores : List ℚ)
    (contamination t : ℚ) (test_scores : List ℚ) (j : ℕ)
    (hj : j < test_scores.length) :
    (predict_confidence train_scores contamination t
        test_scores).getD j 0 =
      (if t < test_scores.getD j 0 then
        1 - binom_cdf
          (train_scores.length -
            (⌊(train_scores.length : ℚ) * contamination⌋).toNat)
          train_scores.length
          ((1 + ((train_scores.countP
              (fun s => decide (s ≤ test_scores.getD j 0))) : ℚ)) /
            (2 + (train_scores.length : ℚ)))
       else
        1 - (1 - binom_cdf
          (train_scores.length -
            (⌊(train_scores.length : ℚ) * contamination⌋).toNat)
          train_scores.length
          ((1 + ((train_scores.countP
              (fun s => decide (s ≤ test_scores.getD j 0))) : ℚ)) /
            (2 + (train_scores.length : ℚ))))) := by
  have hlen : (predict_confidence train_scores contamination t
      test_scores).length = test_scores.length := by
    simp [predict_confidence]
  rw [List.getD_eq_getElem _ _ (by rw [hlen]; exact hj),
      List.getD_eq_getElem _ _ hj]
  simp only [predict_confidence]
  rw [List.getElem_map]

/-- One entry of the label vector returned by `predict`. -/
lemma predict_labels_getD (train_scores : List ℚ)
    (contamination t : ℚ) (test_scores : List ℚ) (j : ℕ)
    (hj : j < test_scores.length) :
    (predict train_scores contamination t test_scores).1.getD j 0 =
      (if t < test_scores.getD j 0 then 1 else 0) := by
  have hlen : (predict train_scores contamination t
      test_scores).1.length = test_scores.length := by
    simp [predict]
  rw [List.getD_eq_getElem _ _ (by rw [hlen]; exact hj),
      List.getD_eq_getElem _ _ hj]
  simp only [predict]
  rw [List.getElem_map]

/-- C2: for a fitted model with `n` training scores, the confidence
vector returned by `predict(X, return_confidence=True)` has one entry
per test score; the entry for test score `x` equals
`c = 1 - BinomialCDF(n - floor(n*contamination); n, p)` with
`p = (1+k)/(2+n)` and `k` the number of training scores `≤ x` when the
sample's predicted label is 1, and `1 - c` when the label is 0; every
reported entry is a probability in `[0, 1]`. -/
theorem c2_confidence (train_scores : List ℚ) (contamination t : ℚ)
    (test_scores : List ℚ) :
    (predict train_scores contamination t test_scores).2.length =
      test_scores.length ∧
    ∀ j, j < test_scores.length →
      ((predict train_scores contamination t test_scores).2.getD j 0 =
        (if (predict train_scores contamination t
              test_scores).1.getD j 0 = 1 then
          1 - binom_cdf
            (train_scores.length -
              (⌊(train_scores.length : ℚ) * contamination⌋).toNat)
            train_scores.length
            ((1 + ((train_scores.countP
                (fun s => decide (s ≤ test_scores.getD j 0))) : ℚ)) /
              (2 + (train_scores.length : ℚ)))
         else
          1 - (1 - binom_cdf
            (train_scores.length -
              (⌊(train_scores.length : ℚ) * contamination⌋).toNat)
            train_scores.length
            ((1 + ((train_scores.countP
                (fun s => decide (s ≤ test_scores.getD j 0))) : ℚ)) /
              (2 + (train_scores.length : ℚ)))))) ∧
      0 ≤ (predict train_scores contamination t test_scores).2.getD j 0 ∧
      (predict train_scores contamination t test_scores).2.getD j 0 ≤ 1 := by
  constructor
  · simp [predict, predict_confidence]
  · intro j hj
    have hconf := predict_confidence_getD train_scores contamination t
      test_scores j hj
    have hlab := predict_labels_getD train_scores contamination t
      test_scores j hj
    have hk : train_scores.countP
        (fun s => decide (s ≤ test_scores.getD j 0)) ≤
        train_scores.length := List.countP_le_length _
    have hkq : ((train_scores.countP
        (fun s => decide (s ≤ test_scores.getD j 0))) : ℚ) ≤
        (train_scores.length : ℚ) := by exact_mod_cast hk
    have hp0 : 0 ≤ (1 + ((train_scores.countP
        (fun s => decide (s ≤ test_scores.getD j 0))) : ℚ)) /
        (2 + (train_scores.length : ℚ)) := by positivity
    have hp1 : (1 + ((train_scores.countP
        (fun s => decide (s ≤ test_scores.getD j 0))) : ℚ)) /
        (2 + (train_scores.length : ℚ)) ≤ 1 := by
      rw [div_le_one (by positivity)]
      linarith
    have hcdf0 := binom_cdf_nonneg
      (train_scores.length -
        (⌊(train_scores.length : ℚ) * contamination⌋).toNat)
      train_scores.length _ hp0 hp1
    have hcdf1 := binom_cdf_le_one
      (train_scores.length -
        (⌊(train_scores.length : ℚ) * contamination⌋).toNat)
      train_scores.length (Nat.sub_le _ _) _ hp0 hp1
    have h2 : (predict train_scores contamination t
        test_scores).2.getD j 0 =
        (predict_confidence train_scores contamination t
          test_scores).getD j 0 := rfl
    rw [h2, hconf, hlab]
    by_cases hx : t < test_scores.getD j 0
    · rw [if_pos hx, if_pos hx, if_pos rfl]
      exact ⟨rfl, by linarith, by linarith⟩
    · rw [if_neg hx, if_neg hx, if_neg (by norm_num)]
      exact ⟨rfl, by linarith, by linarith⟩

/-- C2 witness: three training scores, contamination 1/10, threshold
5/2 and the single test score 3 (predicted anomalous). -/
theorem c2_confidence_witness :
    (0 : ℕ) < ([3] : List ℚ).length ∧
    (((predict [1, 2, 4] (1/10) (5/2) [3]).2.getD 0 0 =
        (if (predict [1, 2, 4] (1/10) (5/2) ([3] : List ℚ)).1.getD 0 0 = 1
         then
          1 - binom_cdf
            (([1, 2, 4] : List ℚ).length -
              (⌊((([1, 2, 4] : List ℚ).length : ℚ)) * (1/10)⌋).toNat)
            ([1, 2, 4] : List ℚ).length
            ((1 + ((([1, 2, 4] : List ℚ).countP
                (fun s => decide (s ≤ ([3] : List ℚ).getD 0 0))) : ℚ)) /
              (2 + ((([1, 2, 4] : List ℚ).length : ℚ))))
         else
          1 - (1 - binom_cdf
            (([1, 2, 4] : List ℚ).length -
              (⌊((([1, 2, 4] : List ℚ).length : ℚ)) * (1/10)⌋).toNat)
            ([1, 2, 4] : List ℚ).length
            ((1 + ((([1, 2, 4] : List ℚ).countP
                (fun s => decide (s ≤ ([3] : List ℚ).getD 0 0))) : ℚ)) /
              (2 + ((([1, 2, 4] : List ℚ).length : ℚ))))))) ∧
      0 ≤ (predict [1, 2, 4] (1/10) (5/2) [3]).2.getD 0 0 ∧
      (predict [1, 2, 4] (1/10) (5/2) [3]).2.getD 0 0 ≤ 1) :=
  ⟨by decide,
   (c2_confidence [1, 2, 4] (1/10) (5/2) [3]).2 0 (by decide)⟩

/-- The sort inside `np.percentile`: on an array with pairwise-distinct
entries the ascending sort is strictly increasing. -/
lemma insertionSort_sorted_lt (l : List ℚ) (hnd : l.Nodup) :
    List.Pairwise (fun a b : ℚ => a < b)
      (l.insertionSort (· ≤ ·)) := by
  have hperm : (l.insertionSort (· ≤ ·)).Perm l :=
    List.perm_insertionSort (· ≤ ·) l
  have hnd2 : List.Pairwise (fun a b : ℚ => a ≠ b)
      (l.insertionSort (· ≤ ·)) :=
    hperm.nodup_iff.mpr hnd
  have hle : List.Pairwise (fun a b : ℚ => a ≤ b)
      (l.insertionSort (· ≤ ·)) :=
    List.sorted_insertionSort (· ≤ ·) l
  exact (hle.and hnd2).imp (fun h => lt_of_le_of_ne h.1 h.2)

/-- Counting entries above a cut in a strictly increasing list: if the
entry at position `k` is at most `t` and the next entry (when it
exists) exceeds `t`, then exactly the `length - (k+1)` trailing entries
exceed `t`. -/
lemma countP_gt_of_sorted (t : ℚ) :
    ∀ l : List ℚ, List.Pairwise (fun a b : ℚ => a < b) l →
      ∀ k, ∀ hk : k < l.length, l.get ⟨k, hk⟩ ≤ t →
        (∀ hk1 : k + 1 < l.length, t < l.get ⟨k + 1, hk1⟩) →
        l.countP (fun x => decide (t < x)) = l.length - (k + 1) := by
  intro l
  induction l with
  | nil =>
    intro _ k hk
    exact absurd hk (Nat.not_lt_zero k)
  | cons a tl ih =>
    intro hp k hk hle hnext
    obtain ⟨ha, htl⟩ := List.pairwise_cons.mp hp
    cases k with
    | zero =>
      have hat : a ≤ t := hle
      have hna : (decide (t < a)) = false := decide_eq_false (not_lt.mpr hat)
      rw [List.countP_cons, hna]
      cases tl with
      | nil => simp
      | cons b tl2 =>
        have hb : t < b := hnext (by simp)
        obtain ⟨hb2, _⟩ := List.pairwise_cons.mp htl
        have hall : ∀ x ∈ b :: tl2, t < x := by
          intro x hx
          rcases List.mem_cons.mp hx with hxb | hxtl
          · rw [hxb]; exact hb
          · exact lt_trans hb (hb2 x hxtl)
        have hcnt : (b :: tl2).countP (fun x => decide (t < x)) =
            (b :: tl2).length :=
          List.countP_eq_length.mpr
            (fun x hx => decide_eq_true (hall x hx))
        rw [hcnt]
        simp
    | succ k =>
      have hk2 : k < tl.length := by
        simpa using hk
      have hle2 : tl.get ⟨k, hk2⟩ ≤ t := hle
      have hnext2 : ∀ hk1 : k + 1 < tl.length, t < tl.get ⟨k + 1, hk1⟩ := by
        intro hk1
        exact hnext (by simpa using hk1)
      have hcount := ih htl k hk2 hle2 hnext2
      have hna : (decide (t < a)) = false := by
        apply decide_eq_false
        have hmem : tl.get ⟨k, hk2⟩ ∈ tl := List.get_mem tl k hk2
        exact not_lt.mpr (le_of_lt (lt_of_lt_of_le (ha _ hmem) hle2))
      rw [List.countP_cons, hcount, if_neg (by simp [hna])]
      simp only [List.length_cons, Nat.add_zero]
      omega

/-- Counting above the interpolated percentile value: in a strictly
increasing list, the linear interpolation between positions `⌊q⌋` and
`⌊q⌋ + 1` (or the last entry, when `q` is the integral last position)
is passed by exactly the entries strictly after position `⌊q⌋`. -/
lemma countP_interp_cut (a : List ℚ) (q t : ℚ)
    (hsorted : List.Pairwise (fun x y : ℚ => x < y) a)
    (hcase : (⌊q⌋).toNat + 1 < a.length ∨
      ((⌊q⌋).toNat + 1 = a.length ∧ ((⌊q⌋ : ℤ) : ℚ) = q))
    (ht : t = a.getD (⌊q⌋).toNat 0 + (q - ((⌊q⌋ : ℤ) : ℚ)) *
      (a.getD ((⌊q⌋).toNat + 1) (a.getD (⌊q⌋).toNat 0) -
        a.getD (⌊q⌋).toNat 0)) :
    a.countP (fun x => decide (t < x)) = a.length - ((⌊q⌋).toNat + 1) := by
  have hi_lt : (⌊q⌋).toNat < a.length := by
    rcases hcase with h | ⟨h, _⟩
    · omega
    · omega
  have hgd0 : a.getD (⌊q⌋).toNat 0 = a.get ⟨(⌊q⌋).toNat, hi_lt⟩ := by
    rw [List.getD_eq_getElem _ _ hi_lt]
    exact (List.get_eq_getElem a ⟨(⌊q⌋).toNat, hi_lt⟩).symm
  rcases hcase with hin | ⟨hend, hint⟩
  · have hgd1 : a.getD ((⌊q⌋).toNat + 1) (a.getD (⌊q⌋).toNat 0) =
        a.get ⟨(⌊q⌋).toNat + 1, hin⟩ := by
      rw [List.getD_eq_getElem _ _ hin]
      exact (List.get_eq_getElem a ⟨(⌊q⌋).toNat + 1, hin⟩).symm
    have hx01 : a.get ⟨(⌊q⌋).toNat, hi_lt⟩ <
        a.get ⟨(⌊q⌋).toNat + 1, hin⟩ :=
      List.pairwise_iff_get.mp hsorted ⟨(⌊q⌋).toNat, hi_lt⟩
        ⟨(⌊q⌋).toNat + 1, hin⟩ (by simp [Fin.mk_lt_mk])
    have hg0 : 0 ≤ q - ((⌊q⌋ : ℤ) : ℚ) := sub_nonneg.mpr (Int.floor_le q)
    have hg1 : q - ((⌊q⌋ : ℤ) : ℚ) < 1 := by
      have := Int.lt_floor_add_one q
      linarith
    apply countP_gt_of_sorted t a hsorted (⌊q⌋).toNat hi_lt
    · rw [ht, hgd1, hgd0]
      nlinarith [sub_pos.mpr hx01]
    · intro hk1
      have : t < a.get ⟨(⌊q⌋).toNat + 1, hin⟩ := by
        rw [ht, hgd1, hgd0]
        nlinarith [sub_pos.mpr hx01]
      exact this
  · have hg : q - ((⌊q⌋ : ℤ) : ℚ) = 0 := by rw [hint]; ring
    apply countP_gt_of_sorted t a hsorted (⌊q⌋).toNat hi_lt
    · rw [ht, hg, hgd0]
      simp
    · intro hk1
      omega

/-- The threshold cut of `_process_decision_scores`: with pairwise
distinct scores, a nonempty array and contamination in `(0, 1/2)`, the
number of scores strictly above the `100*(1-c)` percentile is
`m - (⌊(1-c)*(m-1)⌋ + 1)`. -/
lemma percentile_countP (scores : List ℚ) (c : ℚ)
    (hc0 : 0 < c) (hc1 : c < 1/2) (hne : scores ≠ [])
    (hnd : scores.Nodup) :
    scores.countP (fun x =>
      decide (percentile scores (100 * (1 - c)) < x)) =
      scores.length -
        ((⌊(1 - c) * ((scores.length : ℚ) - 1)⌋).toNat + 1) := by
  have hperm := List.perm_insertionSort (fun x y : ℚ => x ≤ y) scores
  have hlen : (scores.insertionSort (fun x y : ℚ => x ≤ y)).length =
      scores.length := hperm.length_eq
  have hsorted := insertionSort_sorted_lt scores hnd
  have hm : 0 < scores.length := List.length_pos.mpr hne
  have hm1 : (1 : ℚ) ≤ (scores.length : ℚ) := by exact_mod_cast hm
  have hpq : (100 * (1 - c)) / 100 * ((scores.length : ℚ) - 1) =
      (1 - c) * ((scores.length : ℚ) - 1) := by
    rw [mul_comm (100 : ℚ) (1 - c), mul_div_assoc]
    norm_num
  have hpct : percentile scores (100 * (1 - c)) =
      (scores.insertionSort (fun x y : ℚ => x ≤ y)).getD
        (⌊(1 - c) * ((scores.length : ℚ) - 1)⌋).toNat 0 +
      ((1 - c) * ((scores.length : ℚ) - 1) -
        ((⌊(1 - c) * ((scores.length : ℚ) - 1)⌋ : ℤ) : ℚ)) *
      ((scores.insertionSort (fun x y : ℚ => x ≤ y)).getD
        ((⌊(1 - c) * ((scores.length : ℚ) - 1)⌋).toNat + 1)
        ((scores.insertionSort (fun x y : ℚ => x ≤ y)).getD
          (⌊(1 - c) * ((scores.length : ℚ) - 1)⌋).toNat 0) -
       (scores.insertionSort (fun x y : ℚ => x ≤ y)).getD
        (⌊(1 - c) * ((scores.length : ℚ) - 1)⌋).toNat 0) := by
    simp only [percentile]
    rw [hpq]
  have hcase : (⌊(1 - c) * ((scores.length : ℚ) - 1)⌋).toNat + 1 <
      (scores.insertionSort (fun x y : ℚ => x ≤ y)).length ∨
      ((⌊(1 - c) * ((scores.length : ℚ) - 1)⌋).toNat + 1 =
        (scores.insertionSort (fun x y : ℚ => x ≤ y)).length ∧
       ((⌊(1 - c) * ((scores.length : ℚ) - 1)⌋ : ℤ) : ℚ) =
        (1 - c) * ((scores.length : ℚ) - 1)) := by
    by_cases h2 : 2 ≤ scores.length
    · left
      have h2q : (2 : ℚ) ≤ (scores.length : ℚ) := by exact_mod_cast h2
      have hqlt : (1 - c) * ((scores.length : ℚ) - 1) <
          (scores.length : ℚ) - 1 := by nlinarith
      have hfl : ⌊(1 - c) * ((scores.length : ℚ) - 1)⌋ <
          (scores.length : ℤ) - 1 := by
        have h1 : ((⌊(1 - c) * ((scores.length : ℚ) - 1)⌋ : ℤ) : ℚ) <
            (((scores.length : ℤ) - 1 : ℤ) : ℚ) := by
          push_cast
          have := Int.floor_le ((1 - c) * ((scores.length : ℚ) - 1))
          linarith
        exact_mod_cast h1
      rw [hlen]
      omega
    · right
      have hm1n : scores.length = 1 := by omega
      have hq : (1 - c) * ((scores.length : ℚ) - 1) = 0 := by
        rw [hm1n]
        norm_num
      rw [hq, hlen, hm1n]
      norm_num
  have hcore := countP_interp_cut
    (scores.insertionSort (fun x y : ℚ => x ≤ y))
    ((1 - c) * ((scores.length : ℚ) - 1))
    (percentile scores (100 * (1 - c)))
    hsorted hcase hpct
  calc scores.countP (fun x =>
        decide (percentile scores (100 * (1 - c)) < x))
      = (scores.insertionSort (fun x y : ℚ => x ≤ y)).countP
          (fun x => decide (percentile scores (100 * (1 - c)) < x)) :=
        (List.Perm.countP_eq _ hperm).symm
    _ = (scores.insertionSort (fun x y : ℚ => x ≤ y)).length -
          ((⌊(1 - c) * ((scores.length : ℚ) - 1)⌋).toNat + 1) := hcore
    _ = scores.length -
          ((⌊(1 - c) * ((scores.length : ℚ) - 1)⌋).toNat + 1) := by
        rw [hlen]

/-- The percentile cut keeps the anomaly count within one sample of
`c * m`: `|(m - (⌊(1-c)(m-1)⌋ + 1)) - c*m| ≤ 1` for `c ∈ (0, 1/2)`. -/
lemma anomaly_count_near (c : ℚ) (m : ℕ) (hc0 : 0 < c) (hc1 : c < 1/2)
    (hm : 0 < m) :
    |(((m - ((⌊(1 - c) * ((m : ℚ) - 1)⌋).toNat + 1)) : ℕ) : ℚ) -
      c * (m : ℚ)| ≤ 1 := by
  have hm1 : (1 : ℚ) ≤ (m : ℚ) := by exact_mod_cast hm
  have hq0 : 0 ≤ (1 - c) * ((m : ℚ) - 1) := by nlinarith
  have hfl0 : (0 : ℤ) ≤ ⌊(1 - c) * ((m : ℚ) - 1)⌋ :=
    Int.floor_nonneg.mpr hq0
  have hle := Int.floor_le ((1 - c) * ((m : ℚ) - 1))
  have hlt := Int.lt_floor_add_one ((1 - c) * ((m : ℚ) - 1))
  have hexp : (1 - c) * ((m : ℚ) - 1) = (m : ℚ) - 1 - c * (m : ℚ) + c := by
    ring
  have hflm : ⌊(1 - c) * ((m : ℚ) - 1)⌋ ≤ (m : ℤ) - 1 := by
    have hqm : (1 - c) * ((m : ℚ) - 1) ≤ (m : ℚ) - 1 := by nlinarith
    have h1 : ((⌊(1 - c) * ((m : ℚ) - 1)⌋ : ℤ) : ℚ) ≤
        (((m : ℤ) - 1 : ℤ) : ℚ) := by
      push_cast
      linarith
    exact_mod_cast h1
  have him : (⌊(1 - c) * ((m : ℚ) - 1)⌋).toNat + 1 ≤ m := by omega
  have htn : (((⌊(1 - c) * ((m : ℚ) - 1)⌋).toNat : ℕ) : ℚ) =
      ((⌊(1 - c) * ((m : ℚ) - 1)⌋ : ℤ) : ℚ) := by
    exact_mod_cast Int.toNat_of_nonneg hfl0
  have hcast : (((m - ((⌊(1 - c) * ((m : ℚ) - 1)⌋).toNat + 1)) : ℕ) : ℚ) =
      (m : ℚ) - (((⌊(1 - c) * ((m : ℚ) - 1)⌋).toNat : ℕ) : ℚ) - 1 := by
    push_cast [him]
    ring
  rw [hcast, htn, abs_le]
  constructor
  · linarith
  · linarith

/-- C8 counterexample: with tied fitted scores the claim fails already
for the 0/1 array computed inside `_process_decision_scores`.  Three
identical scores and contamination `2/5` give a threshold equal to the
common value, so zero entries of that array are 1 while
`c * m = 6/5` - off by more than one sample. -/
theorem c8_counterexample :
    ¬ (|((((process_decision_scores
        ⟨2/5, [5, 5, 5], 0, [], 0, 0⟩).labels_.count 1) : ℕ) : ℚ) -
        (2/5) * (([5, 5, 5] : List ℚ).length : ℚ)| ≤ 1) := by
  have h1 : (100 * (1 - 2/5 : ℚ)) / 100 *
      ((([5, 5, 5] : List ℚ).length : ℚ) - 1) = 6/5 := by
    norm_num
  have h2 : (⌊(6/5 : ℚ)⌋ : ℤ) = 1 := by norm_num
  have ht : percentile [5, 5, 5] (100 * (1 - 2/5)) = 5 := by
    simp only [percentile, h1, h2]
    norm_num [List.insertionSort, List.orderedInsert, List.getD]
  have hlab : (process_decision_scores
      ⟨2/5, [5, 5, 5], 0, [], 0, 0⟩).labels_ = [0, 0, 0] := by
    show ([5, 5, 5] : List ℚ).map (fun x =>
      if percentile [5, 5, 5] (100 * (1 - 2/5)) < x then (1 : ℕ) else 0) =
      [0, 0, 0]
    rw [ht]
    norm_num
  rw [hlab]
  norm_num [List.count_cons]
  rw [show |(6/5 : ℚ)| = 6/5 from abs_of_nonneg (by norm_num)]
  norm_num

/-- C8 amended: for contamination `c ∈ (0, 1/2)` and a nonempty fitted
score array with pairwise-distinct entries, the number of entries equal
to 1 in the 0/1 label array computed inside `_process_decision_scores`
differs from `c * m` by at most one sample.  (The count must be read
from the helper's array: after `fit` returns, line 200 has rebound the
`labels_` attribute to the model object returned by the helper.) -/
theorem c8_amended (s : DetectorState) (hc0 : 0 < s.contamination)
    (hc1 : s.contamination < 1/2) (hne : s.decision_scores_ ≠ [])
    (hnd : s.decision_scores_.Nodup) :
    |((((process_decision_scores s).labels_.count 1) : ℕ) : ℚ) -
      s.contamination * (s.decision_scores_.length : ℚ)| ≤ 1 := by
  have hlab : (process_decision_scores s).labels_ =
      s.decision_scores_.map (fun x =>
        if percentile s.decision_scores_
          (100 * (1 - s.contamination)) < x then (1 : ℕ) else 0) := rfl
  have hfun : ((fun x : ℕ => x == 1) ∘ (fun x : ℚ =>
      if percentile s.decision_scores_
        (100 * (1 - s.contamination)) < x then (1 : ℕ) else 0)) =
      (fun x : ℚ => decide (percentile s.decision_scores_
        (100 * (1 - s.contamination)) < x)) := by
    funext x
    by_cases hx : percentile s.decision_scores_
      (100 * (1 - s.contamination)) < x
    · simp [hx]
    · simp [hx]
  have hcnt : (process_decision_scores s).labels_.count 1 =
      s.decision_scores_.countP (fun x =>
        decide (percentile s.decision_scores_
          (100 * (1 - s.contamination)) < x)) := by
    rw [hlab, List.count_eq_countP, List.countP_map, hfun]
  rw [hcnt, percentile_countP s.decision_scores_ s.contamination
    hc0 hc1 hne hnd]
  exact anomaly_count_near s.contamination s.decision_scores_.length
    hc0 hc1 (List.length_pos.mpr hne)

/-- C8 amended witness: ten distinct scores 1..10 with contamination
`2/5`: four samples are labeled anomalous and `c * m = 4`. -/
theorem c8_amended_witness :
    ((0 : ℚ) < 2/5 ∧ (2/5 : ℚ) < 1/2 ∧
      ([1, 2, 3, 4, 5, 6, 7, 8, 9, 10] : List ℚ) ≠ [] ∧
      ([1, 2, 3, 4, 5, 6, 7, 8, 9, 10] : List ℚ).Nodup) ∧
    |((((process_decision_scores
        ⟨2/5, [1, 2, 3, 4, 5, 6, 7, 8, 9, 10], 0, [], 0, 0⟩).labels_.count
          1) : ℕ) : ℚ) -
      (2/5) * (([1, 2, 3, 4, 5, 6, 7, 8, 9, 10] : List ℚ).length : ℚ)| ≤
      1 :=
  ⟨⟨by norm_num, by norm_num, by decide, by decide⟩,
   c8_amended ⟨2/5, [1, 2, 3, 4, 5, 6, 7, 8, 9, 10], 0, [], 0, 0⟩
     (by norm_num) (by norm_num) (by decide) (by decide)⟩
